import Mathlib

/-!
Shallow embedding of `ocs2::MultipleShootingSolver` (MultipleShootingSolver.cpp)
over real scalars. Vectors (`vector_t`) are lists of reals, matrices
(`matrix_t`) are lists of rows. External collaborators (the HPIPM QP back-end,
the node transcription of `MultipleShootingTranscription.h`, linear
interpolation of previous solutions) enter as oracle parameters; everything
else is translated from the source.
-/

namespace OCS2

/-- `vector_t`: a dense column vector, as the list of its entries. -/
def vec := List ℝ

/-- `matrix_t`: a dense matrix, as the list of its rows. -/
def mat := List (List ℝ)

instance : Inhabited vec := ⟨([] : List ℝ)⟩

instance : Inhabited mat := ⟨([] : List (List ℝ))⟩

/-- Eigen vector addition `a + b`. -/
def vadd (a b : vec) : vec := List.zipWith (· + ·) a b

/-- Eigen vector subtraction `a - b`. -/
def vsub (a b : vec) : vec := List.zipWith (· - ·) a b

/-- Eigen scalar-times-vector `c * a`. -/
def vsmul (c : ℝ) (a : vec) : vec := List.map (fun t => c * t) a

/-- Inner product of two vectors. -/
def dot (a b : vec) : ℝ := (List.zipWith (· * ·) a b).sum

/-- Eigen matrix-vector product `A * v`. -/
def matVec (A : mat) (v : vec) : vec := A.map (fun row => dot row v)

/-- Eigen matrix addition `A + B`. -/
def matAdd (A B : mat) : mat := List.zipWith vadd A B

/-- Eigen matrix-matrix product `A * B`. -/
def matMul (A B : mat) : mat := A.map (fun row => B.transpose.map (dot row))

/-- Eigen `v.squaredNorm()`: sum of squared entries. -/
def squaredNorm (v : vec) : ℝ := v.foldl (fun acc t => acc + t * t) 0

/-- `ocs2::PerformanceIndex` (ocs2_core): the scalar metrics of an iterate. -/
structure PerformanceIndex where
  merit : ℝ
  totalCost : ℝ
  stateEqConstraintISE : ℝ
  stateInputEqConstraintISE : ℝ
  inequalityConstraintISE : ℝ
  inequalityConstraintPenalty : ℝ

instance : Inhabited PerformanceIndex := ⟨⟨0, 0, 0, 0, 0, 0⟩⟩

/-- Modelled from the spec: `PerformanceIndex::operator+=` (declared in
ocs2_core, not part of the given sources) reduces performance indices by
field-wise summation ("Reduce performance indices by summation"). -/
def PerformanceIndex.add (a b : PerformanceIndex) : PerformanceIndex where
  merit := a.merit + b.merit
  totalCost := a.totalCost + b.totalCost
  stateEqConstraintISE := a.stateEqConstraintISE + b.stateEqConstraintISE
  stateInputEqConstraintISE := a.stateInputEqConstraintISE + b.stateInputEqConstraintISE
  inequalityConstraintISE := a.inequalityConstraintISE + b.inequalityConstraintISE
  inequalityConstraintPenalty := a.inequalityConstraintPenalty + b.inequalityConstraintPenalty

/-- Lines 403-423 of MultipleShootingSolver.cpp, the aggregation tail of
`setupQuadraticSubproblem`: add the init-state residual
`(initState - x.front()).squaredNorm()` to `performance.front()`,
left-fold `std::accumulate(next(begin), end, front)` over `operator+`,
then overwrite `merit = totalCost + inequalityConstraintPenalty`.
The per-worker indices (produced by `multiple_shooting::setupIntermediateNode`
and `setupTerminalNode`, external to the given sources) are the input list. -/
def setupQuadraticSubproblemPerf (worker : List PerformanceIndex) (initState x0 : vec) :
    PerformanceIndex :=
  match worker with
  | [] => ⟨0, 0, 0, 0, 0, 0⟩
  | w :: ws =>
      let w' := { w with stateEqConstraintISE := w.stateEqConstraintISE + squaredNorm (vsub initState x0) }
      let tot := ws.foldl PerformanceIndex.add w'
      { tot with merit := tot.totalCost + tot.inequalityConstraintPenalty }

/-- Lines 458-464 of MultipleShootingSolver.cpp, the aggregation tail of
`computePerformance`: identical to the tail of `setupQuadraticSubproblem`
(init-state residual into the front index, left-to-right accumulation,
merit recomputed from the aggregate). -/
def computePerformanceAgg (worker : List PerformanceIndex) (initState x0 : vec) :
    PerformanceIndex :=
  match worker with
  | [] => ⟨0, 0, 0, 0, 0, 0⟩
  | w :: ws =>
      let w' := { w with stateEqConstraintISE := w.stateEqConstraintISE + squaredNorm (vsub initState x0) }
      let tot := ws.foldl PerformanceIndex.add w'
      { tot with merit := tot.totalCost + tot.inequalityConstraintPenalty }

/-- The subset of `multiple_shooting::Settings` consumed by the translated code. -/
structure Settings where
  alpha_decay : ℝ
  alpha_min : ℝ
  gamma_c : ℝ
  g_max : ℝ
  g_min : ℝ
  costTol : ℝ
  deltaTol : ℝ
  sqpIteration : ℕ
  projectStateInputEqualityConstraints : Bool
  controllerFeedback : Bool
  n_input : ℕ

/-- Lines 467-473, `MultipleShootingSolver::trajectoryNorm`: accumulate the
squared norms of the members and take the square root. -/
noncomputable def trajectoryNorm (v : List vec) : ℝ :=
  Real.sqrt (v.foldl (fun nrm vi => nrm + squaredNorm vi) 0)

/-- Lines 500-501 and 521-522: the constraint-violation norm
`sqrt(stateEqConstraintISE + stateInputEqConstraintISE + inequalityConstraintISE)`. -/
noncomputable def constraintViolation (p : PerformanceIndex) : ℝ :=
  Real.sqrt (p.stateEqConstraintISE + p.stateInputEqConstraintISE + p.inequalityConstraintISE)

open Classical in
/-- Lines 524-535, the `stepAccepted` lambda of `takeStep`: the filter
line-search acceptance test on the candidate performance index. -/
def stepAccepted (s : Settings) (baseline : PerformanceIndex) (baselineConstraintViolation : ℝ)
    (performanceNew : PerformanceIndex) (newConstraintViolation : ℝ) : Prop :=
  if newConstraintViolation > s.g_max then False
  else if newConstraintViolation < s.g_min then performanceNew.merit < baseline.merit
  else
    performanceNew.merit < baseline.merit - s.gamma_c * baselineConstraintViolation ∨
      newConstraintViolation < (1 - s.gamma_c) * baselineConstraintViolation

/-- Lines 508-514: `uNew` is sized like `u`; entries `0..N-1` are assigned
`u[i] + alpha * du[i]`, any remaining entries stay default-constructed. -/
def candidateU (alpha : ℝ) (N : ℕ) (u du : List vec) : List vec :=
  (List.range u.length).map fun i =>
    if i < N then vadd (u.getD i default) (vsmul alpha (du.getD i default)) else default

/-- Lines 508-517: `xNew` is sized like `x`; entries `0..N` are assigned
`x[i] + alpha * dx[i]`. -/
def candidateX (alpha : ℝ) (N : ℕ) (x dx : List vec) : List vec :=
  (List.range x.length).map fun i =>
    if i < N + 1 then vadd (x.getD i default) (vsmul alpha (dx.getD i default)) else default

/-- The fixed data of one `takeStep` call (lines 475-505): settings, the
baseline performance index, the time discretization, and the search
direction. `cp` is the oracle for the member call
`computePerformance(timeDiscretization, initState, xNew, uNew)` evaluated at
the candidate trajectories; its node-level internals live in
`MultipleShootingTranscription.h`, outside the given sources. -/
structure TakeStepParams where
  settings : Settings
  baseline : PerformanceIndex
  timeDiscretization : List ℝ
  dx : List vec
  du : List vec
  cp : List vec → List vec → PerformanceIndex

/-- Line 499: `N = timeDiscretization.size() - 1`. -/
def TakeStepParams.N (P : TakeStepParams) : ℕ := P.timeDiscretization.length - 1

/-- Lines 500-501: the baseline constraint violation `v_B`. -/
noncomputable def TakeStepParams.baselineViolation (P : TakeStepParams) : ℝ := constraintViolation P.baseline

/-- Line 504: `deltaUnorm = trajectoryNorm(du)`. -/
noncomputable def TakeStepParams.deltaUnorm (P : TakeStepParams) : ℝ := trajectoryNorm P.du

/-- Line 505: `deltaXnorm = trajectoryNorm(dx)`. -/
noncomputable def TakeStepParams.deltaXnorm (P : TakeStepParams) : ℝ := trajectoryNorm P.dx

/-- The candidate state trajectory at step size `alpha`. -/
def TakeStepParams.xNew (P : TakeStepParams) (x : List vec) (alpha : ℝ) : List vec :=
  candidateX alpha P.N x P.dx

/-- The candidate input trajectory at step size `alpha`. -/
def TakeStepParams.uNew (P : TakeStepParams) (u : List vec) (alpha : ℝ) : List vec :=
  candidateU alpha P.N u P.du

/-- Line 520: `performanceNew = computePerformance(..., xNew, uNew)`. -/
def TakeStepParams.performanceNew (P : TakeStepParams) (x u : List vec) (alpha : ℝ) :
    PerformanceIndex :=
  P.cp (P.xNew x alpha) (P.uNew u alpha)

/-- Lines 521-535: the acceptance test at step size `alpha`, with the
candidate violation recomputed from `performanceNew` (lines 521-522). -/
def TakeStepParams.accepted (P : TakeStepParams) (x u : List vec) (alpha : ℝ) : Prop :=
  stepAccepted P.settings P.baseline P.baselineViolation (P.performanceNew x u alpha)
    (constraintViolation (P.performanceNew x u alpha))

/-- Line 547: `alpha * deltaUnorm < deltaTol && alpha * deltaXnorm < deltaTol`. -/
def TakeStepParams.stepSizeBelowTol (P : TakeStepParams) (alpha : ℝ) : Prop :=
  alpha * P.deltaUnorm < P.settings.deltaTol ∧ alpha * P.deltaXnorm < P.settings.deltaTol

/-- Line 552: `abs(baseline.merit - performanceNew.merit) < costTol &&
newConstraintViolation < g_min`. -/
def TakeStepParams.improvementBelowTol (P : TakeStepParams) (x u : List vec) (alpha : ℝ) : Prop :=
  |P.baseline.merit - (P.performanceNew x u alpha).merit| < P.settings.costTol ∧
    constraintViolation (P.performanceNew x u alpha) < P.settings.g_min

/-- The observable outcome of `takeStep`: the returned convergence flag, the
final contents of the in/out trajectories `x`, `u`, and the step size at
which a candidate was accepted (`none` when the search exited without
accepting any candidate). -/
structure TakeStepOut where
  converged : Prop
  x : List vec
  u : List vec
  acceptedAlpha : Option ℝ

/-- Lines 507-567, the `while (alpha > alpha_min)` loop of `takeStep`, as a
big-step relation from the current step size to the outcome. The in/out
trajectories `x`, `u` are loop-invariant: the source writes candidates into
the local buffers `xNew`, `uNew` and moves them into `x`, `u` only on
acceptance (lines 550-551).
- `exitAlphaMin`: the guard fails; fall out of the loop, `return true` (line 566).
- `exitAccept`: the candidate is accepted; `x`, `u` receive the candidate and
  the function returns `stepSizeBelowTol || improvementBelowTol` (lines 549-553).
- `exitStepSize`: a rejected candidate already has both step norms below
  `deltaTol`; `return true` (lines 556-561).
- `next`: otherwise contract, `alpha *= alpha_decay` (line 563), and iterate. -/
inductive TakeStepLoop (P : TakeStepParams) (x u : List vec) : ℝ → TakeStepOut → Prop
  | exitAlphaMin {alpha : ℝ} :
      ¬ alpha > P.settings.alpha_min →
      TakeStepLoop P x u alpha ⟨True, x, u, none⟩
  | exitAccept {alpha : ℝ} :
      alpha > P.settings.alpha_min →
      P.accepted x u alpha →
      TakeStepLoop P x u alpha
        ⟨P.stepSizeBelowTol alpha ∨ P.improvementBelowTol x u alpha,
          P.xNew x alpha, P.uNew u alpha, some alpha⟩
  | exitStepSize {alpha : ℝ} :
      alpha > P.settings.alpha_min →
      ¬ P.accepted x u alpha →
      P.stepSizeBelowTol alpha →
      TakeStepLoop P x u alpha ⟨True, x, u, none⟩
  | next {alpha : ℝ} {out : TakeStepOut} :
      alpha > P.settings.alpha_min →
      ¬ P.accepted x u alpha →
      ¬ P.stepSizeBelowTol alpha →
      TakeStepLoop P x u (alpha * P.settings.alpha_decay) out →
      TakeStepLoop P x u alpha out

/-- Lines 475-567, `MultipleShootingSolver::takeStep`: run the line-search
loop from `alpha = 1.0` (line 507). -/
def TakeStep (P : TakeStepParams) (x u : List vec) (out : TakeStepOut) : Prop :=
  TakeStepLoop P x u 1 out

/-- Modelled from the spec: the status enum of the HPIPM QP back-end
(`hpipm_status`, external to the given sources); the spec's contract only
distinguishes success from non-success ("the back-end returned non-success"). -/
inductive HpipmStatus where
  | SUCCESS
  | MAX_ITER
  | MIN_STEP
  | NAN_SOL
  | INCONS_EQ
  deriving DecidableEq

/-- A constraint block `(f, dfdx, dfdu)` as stored in `constraints_`
(`VectorFunctionLinearApproximation` of ocs2_core). -/
structure ConstraintBlock where
  f : vec
  dfdx : mat
  dfdu : mat

instance : Inhabited ConstraintBlock := ⟨⟨default, default, default⟩⟩

/-- Lines 344-351 of `getOCPSolution`: remap the reduced (tilde) input step to
the real input space, `deltaU[i] = dfdu[i] * deltaU[i] + dfdx[i] * deltaX[i]
+ f[i]` for every `i` below `deltaUSol.size()`. -/
def remapInputStep (constraints : List ConstraintBlock) (deltaXSol deltaUSol : List vec) :
    List vec :=
  (List.range deltaUSol.length).map fun i =>
    vadd
      (vadd (matVec (constraints.getD i default).dfdu (deltaUSol.getD i default))
        (matVec (constraints.getD i default).dfdx (deltaXSol.getD i default)))
      (constraints.getD i default).f

/-- Lines 329-354, `MultipleShootingSolver::getOCPSolution`. The external
`hpipmInterface_.solve` call is represented by its outputs: the returned
`status` and the raw solution `(deltaXSol, deltaUSol)`. A non-success status
raises `std::runtime_error` (line 341), modelled as `Except.error`; on
success, when a constraint is present and projection is enabled, the input
step is remapped to the real input space (lines 345-351). -/
def getOCPSolution (status : HpipmStatus) (hasConstraint project : Bool)
    (constraints : List ConstraintBlock) (deltaXSol deltaUSol : List vec) :
    Except Unit (List vec × List vec) :=
  if status ≠ HpipmStatus.SUCCESS then Except.error ()
  else if hasConstraint && project then
    Except.ok (deltaXSol, remapInputStep constraints deltaXSol deltaUSol)
  else Except.ok (deltaXSol, deltaUSol)

/-- The emitted controller: `FeedforwardController` or `LinearController`
(u = uff + K * x). -/
inductive Controller where
  | feedforward (time : List ℝ) (u : List vec)
  | linear (time : List ℝ) (uff : List vec) (gain : List mat)

/-- Lines 214-217: with projection, the gain at node `i < N` is
`constraints_[i].dfdx + constraints_[i].dfdu * K[i]`. -/
def projectedGains (constraints : List ConstraintBlock) (K : List mat) (N : ℕ) : List mat :=
  (List.range N).map fun i =>
    matAdd (constraints.getD i default).dfdx
      (matMul (constraints.getD i default).dfdu (K.getD i default))

/-- Lines 218-219 and 241-242: the feedforward sample at node `i < N` is
`u[i] - gain[i] * x[i]`. -/
def feedforwardTerms (gains : List mat) (uTraj xTraj : List vec) (N : ℕ) : List vec :=
  (List.range N).map fun i =>
    vsub (uTraj.getD i default) (matVec (gains.getD i default) (xTraj.getD i default))

/-- Lines 202, 221-223 and 245-247: `push_back(back())`, duplicating the last
element. `getLastD` yields the default on an empty list, where the C++
`back()` is undefined behavior. -/
def duplicateLast {α : Type _} [Inhabited α] (l : List α) : List α := l ++ [l.getLastD default]

/-- Lines 205-253 of `runImpl`: build the controller from the stored primal
solution. `K` is the oracle result of the external
`hpipmInterface_.getRiccatiFeedback`. -/
def emitController (hasConstraint project feedback : Bool)
    (constraints : List ConstraintBlock) (K : List mat)
    (time : List ℝ) (xTraj uTraj : List vec) (N : ℕ) : Controller :=
  if hasConstraint && project then
    if feedback then
      let gains := projectedGains constraints K N
      Controller.linear time (duplicateLast (feedforwardTerms gains uTraj xTraj N))
        (duplicateLast gains)
    else Controller.feedforward time uTraj
  else
    if feedback then
      let gains := (List.range N).map fun i => K.getD i default
      Controller.linear time (duplicateLast (feedforwardTerms gains uTraj xTraj N))
        (duplicateLast gains)
    else Controller.feedforward time uTraj

/-- `ocs2::PrimalSolution`, restricted to the fields `runImpl` writes. -/
structure PrimalSolution where
  timeTrajectory : List ℝ
  stateTrajectory : List vec
  inputTrajectory : List vec
  controller : Option Controller

instance : Inhabited PrimalSolution := ⟨⟨[], [], [], none⟩⟩

/-- The solver member state observable around `runImpl`. -/
structure SolverState where
  primalSolution : PrimalSolution
  performanceIndeces : List PerformanceIndex
  totalNumIterations : ℕ

open Classical in
/-- Lines 282-311, `initializeInputTrajectory`: for each `i < N`, interpolate
the previous input trajectory when `t_i` lies before `interpolateTill`,
otherwise fall back to the operating-trajectory heuristic when present, else
the zero input of size `n_input`. `interpPrev` stands for
`LinearInterpolation::interpolate` over the previous primal solution and
`opTraj` for `getSystemOperatingTrajectories` (both external to the given
sources). -/
noncomputable def initInputTrajectory (interpolateTill : ℝ) (timeDisc : List ℝ)
    (interpPrev : ℝ → vec) (opTraj : Option (ℝ → ℝ → vec → vec)) (nInput : ℕ)
    (stateTrajectory : List vec) (N : ℕ) : List vec :=
  (List.range N).map fun i =>
    let ti := timeDisc.getD i 0
    if ti < interpolateTill then interpPrev ti
    else
      match opTraj with
      | some f => f ti (timeDisc.getD (i + 1) 0) (stateTrajectory.getD i default)
      | none => (List.replicate nInput (0 : ℝ) : vec)

/-- Lines 313-327, `initializeStateTrajectory`: on the first solver invocation
(`totalNumIterations == 0`) return `N+1` copies of `initState`; afterwards
force the first node to `initState` and interpolate the previous state
trajectory at the remaining grid points (`interpPrev` stands for
`LinearInterpolation::interpolate`). -/
def initStateTrajectory (initState : vec) (timeDisc : List ℝ) (interpPrev : ℝ → vec)
    (firstInvocation : Bool) (N : ℕ) : List vec :=
  if firstInvocation then List.replicate (N + 1) initState
  else initState :: ((List.range N).map fun i => interpPrev (timeDisc.getD (i + 1) 0))

/-- The per-solve results of the external collaborators of `runImpl`: the
time grid from `multiple_shooting::timeDiscretizationWithEvents`, the linear
interpolation of the previous primal solution, the operating-trajectory
heuristic, and, per outer iteration `it`: the per-worker performance indices
accumulated by the transcription workers, the QP back-end status and raw
solution, the constraint blocks stored into `constraints_` by the subproblem
setup, and the line-search performance evaluation; finally the Riccati gains
of the last QP. -/
structure SqpOracles where
  timeDisc : List ℝ
  interpState : ℝ → vec
  interpInput : ℝ → vec
  opTraj : Option (ℝ → ℝ → vec → vec)
  workerPerf : ℕ → List PerformanceIndex
  qpStatus : ℕ → HpipmStatus
  qpDeltaX : ℕ → List vec
  qpDeltaU : ℕ → List vec
  constraintBlocks : ℕ → List ConstraintBlock
  lsPerf : ℕ → List vec → List vec → PerformanceIndex
  riccatiK : List mat

/-- Line 152: `N = timeDiscretization.size() - 1`. -/
def SqpOracles.N (O : SqpOracles) : ℕ := O.timeDisc.length - 1

/-- Line 175: the performance index pushed by `setupQuadraticSubproblem` at
outer iteration `it`, aggregated from the worker indices with the
init-state residual added at `x.front()`. -/
def iterationPerf (O : SqpOracles) (initState : vec) (it : ℕ) (x : List vec) :
    PerformanceIndex :=
  setupQuadraticSubproblemPerf (O.workerPerf it) initState (x.getD 0 default)

/-- Lines 186-188: the line-search data of outer iteration `it` after a
successful QP solve with step `(dx, du)`: the baseline is the performance
index just pushed (line 188 uses `performanceIndeces_.back()`), and the
candidate evaluation is iteration `it`'s `computePerformance` oracle. -/
def iterationParams (O : SqpOracles) (S : Settings) (initState : vec) (it : ℕ)
    (x : List vec) (dx du : List vec) : TakeStepParams :=
  { settings := S, baseline := iterationPerf O initState it x,
    timeDiscretization := O.timeDisc, dx := dx, du := du, cp := O.lsPerf it }

/-- The result of the outer iteration loop of `runImpl`: either the QP threw
(carrying the performance log and the number of completed iterations), or
the loop finished with trajectories `x`, `u`, the log, the stored constraint
blocks, and the iteration count. -/
inductive SqpOutcome where
  | threw (log : List PerformanceIndex) (iters : ℕ)
  | finished (x u : List vec) (log : List PerformanceIndex) (cb : List ConstraintBlock)
      (iters : ℕ)

/-- Lines 169-195, the outer SQP iteration loop of `runImpl`, as a big-step
relation. Arguments after the fixed data: remaining iterations, the current
iteration index `it`, the trajectories `x`, `u`, the performance log and the
stored constraint blocks. Each executed iteration pushes the subproblem
performance index (line 175), solves the QP via `getOCPSolution` (line 183),
and line-searches via `takeStep` (line 188). A QP failure propagates the
exception; a converged line search breaks the loop; exhausting
`sqpIteration` ends it. -/
inductive SqpLoop (O : SqpOracles) (S : Settings) (hasConstraint : Bool) (initState : vec) :
    ℕ → ℕ → List vec → List vec → List PerformanceIndex → List ConstraintBlock →
      SqpOutcome → Prop
  | exhausted {it : ℕ} {x u : List vec} {log : List PerformanceIndex}
      {cb : List ConstraintBlock} :
      SqpLoop O S hasConstraint initState 0 it x u log cb (.finished x u log cb it)
  | qpFail {k it : ℕ} {x u : List vec} {log : List PerformanceIndex}
      {cb : List ConstraintBlock} :
      getOCPSolution (O.qpStatus it) hasConstraint S.projectStateInputEqualityConstraints
        (O.constraintBlocks it) (O.qpDeltaX it) (O.qpDeltaU it) = Except.error () →
      SqpLoop O S hasConstraint initState (k + 1) it x u log cb
        (.threw (log ++ [iterationPerf O initState it x]) it)
  | converged {k it : ℕ} {x u dx du : List vec} {log : List PerformanceIndex}
      {cb : List ConstraintBlock} {out : TakeStepOut} :
      getOCPSolution (O.qpStatus it) hasConstraint S.projectStateInputEqualityConstraints
        (O.constraintBlocks it) (O.qpDeltaX it) (O.qpDeltaU it) = Except.ok (dx, du) →
      TakeStep (iterationParams O S initState it x dx du) x u out →
      out.converged →
      SqpLoop O S hasConstraint initState (k + 1) it x u log cb
        (.finished out.x out.u (log ++ [iterationPerf O initState it x])
          (O.constraintBlocks it) (it + 1))
  | step {k it : ℕ} {x u dx du : List vec} {log : List PerformanceIndex}
      {cb : List ConstraintBlock} {out : TakeStepOut} {outcome : SqpOutcome} :
      getOCPSolution (O.qpStatus it) hasConstraint S.projectStateInputEqualityConstraints
        (O.constraintBlocks it) (O.qpDeltaX it) (O.qpDeltaU it) = Except.ok (dx, du) →
      TakeStep (iterationParams O S initState it x dx du) x u out →
      ¬ out.converged →
      SqpLoop O S hasConstraint initState k (it + 1) out.x out.u
        (log ++ [iterationPerf O initState it x]) (O.constraintBlocks it) outcome →
      SqpLoop O S hasConstraint initState (k + 1) it x u log cb outcome

/-- Lines 154-155: the initial state trajectory of this solve. -/
def runInitX (O : SqpOracles) (initState : vec) (s : SolverState) : List vec :=
  initStateTrajectory initState O.timeDisc O.interpState (s.totalNumIterations == 0) O.N

/-- Lines 156 and 284: `interpolateTill` is the end of the previous time
trajectory after the first solve, else the front of the new grid; then the
initial input trajectory of this solve. -/
noncomputable def runInitU (O : SqpOracles) (S : Settings) (initState : vec)
    (s : SolverState) : List vec :=
  initInputTrajectory
    (if s.totalNumIterations > 0 then s.primalSolution.timeTrajectory.getLastD 0
      else O.timeDisc.getD 0 0)
    O.timeDisc O.interpInput O.opTraj S.n_input (runInitX O initState s) O.N

/-- Lines 197-253: store the result in the primal solution — the time grid,
the state trajectory, the input trajectory padded by repeating its last
element — and build the controller from the padded solution. -/
def emitPrimalSolution (O : SqpOracles) (S : Settings) (hasConstraint : Bool)
    (x u : List vec) (cb : List ConstraintBlock) : PrimalSolution :=
  { timeTrajectory := O.timeDisc, stateTrajectory := x,
    inputTrajectory := duplicateLast u,
    controller := some (emitController hasConstraint S.projectStateInputEqualityConstraints
      S.controllerFeedback cb O.riccatiK O.timeDisc x (duplicateLast u) O.N) }

/-- The observable outcome of `runImpl` on the solver state: a propagated QP
exception, or normal termination. -/
inductive RunOutcome where
  | threw (s : SolverState)
  | finished (s : SolverState)

/-- Lines 141-261, `MultipleShootingSolver::runImpl`: build the time grid
(oracle `O.timeDisc`), initialize the trajectories, clear the performance
log (line 167), run the SQP loop, and on normal termination store the padded
primal solution and the controller. When the QP fails the exception
propagates: the stored primal solution is untouched; the refreshed
performance log and the iteration count are the only surviving writes. -/
inductive RunImpl (O : SqpOracles) (S : Settings) (hasConstraint : Bool) (initState : vec)
    (s : SolverState) : RunOutcome → Prop
  | threw {log : List PerformanceIndex} {iters : ℕ} :
      SqpLoop O S hasConstraint initState S.sqpIteration 0 (runInitX O initState s)
        (runInitU O S initState s) [] [] (.threw log iters) →
      RunImpl O S hasConstraint initState s
        (.threw ⟨s.primalSolution, log, s.totalNumIterations + iters⟩)
  | finished {x u : List vec} {log : List PerformanceIndex} {cb : List ConstraintBlock}
      {iters : ℕ} :
      SqpLoop O S hasConstraint initState S.sqpIteration 0 (runInitX O initState s)
        (runInitU O S initState s) [] [] (.finished x u log cb iters) →
      RunImpl O S hasConstraint initState s
        (.finished ⟨emitPrimalSolution O S hasConstraint x u cb, log,
          s.totalNumIterations + iters⟩)

/-- A degenerate settings record used to exercise the line-search relation on
a concrete input: `alpha_min = 1` makes the loop guard fail immediately. -/
def settingsStop : Settings :=
  { alpha_decay := 0, alpha_min := 1, gamma_c := 0, g_max := 0, g_min := 0,
    costTol := 0, deltaTol := 0, sqpIteration := 0,
    projectStateInputEqualityConstraints := false, controllerFeedback := false, n_input := 0 }

/-- A concrete `takeStep` instance with empty trajectories. -/
def paramsStop : TakeStepParams :=
  { settings := settingsStop, baseline := default, timeDiscretization := [],
    dx := [], du := [], cp := fun _ _ => default }

/-- The outcome of `takeStep` on `paramsStop`: the guard fails at once. -/
def outStop : TakeStepOut := ⟨True, [], [], none⟩

/-- A concrete oracle set on the one-point grid `[0]` whose QP reports
`MAX_ITER` at every iteration. -/
def oracles0 : SqpOracles :=
  { timeDisc := [0], interpState := fun _ => default, interpInput := fun _ => default,
    opTraj := none, workerPerf := fun _ => [default],
    qpStatus := fun _ => HpipmStatus.MAX_ITER, qpDeltaX := fun _ => [],
    qpDeltaU := fun _ => [], constraintBlocks := fun _ => [],
    lsPerf := fun _ _ _ => default, riccatiK := [] }

/-- `settingsStop` with a single SQP iteration. -/
def settingsOne : Settings := { settingsStop with sqpIteration := 1 }

/-- A solver state before any solve. -/
def solverState0 : SolverState := ⟨default, [], 0⟩

/-- The state in which the concrete failing run surfaces the QP exception. -/
def threwState : SolverState :=
  ⟨solverState0.primalSolution,
    [] ++ [iterationPerf oracles0 [] 0 (runInitX oracles0 [] solverState0)],
    solverState0.totalNumIterations + 0⟩

/-- The state after the concrete zero-iteration run finishes normally. -/
noncomputable def finishedState : SolverState :=
  ⟨emitPrimalSolution oracles0 settingsStop false (runInitX oracles0 [] solverState0)
      (runInitU oracles0 settingsStop [] solverState0) [],
    [], solverState0.totalNumIterations + 0⟩

lemma foldl_add_stateEqISE (ws : List PerformanceIndex) (w : PerformanceIndex) :
    (ws.foldl PerformanceIndex.add w).stateEqConstraintISE =
      w.stateEqConstraintISE + (ws.map PerformanceIndex.stateEqConstraintISE).sum := by
  induction ws generalizing w with
  | nil => simp
  | cons p ps ih =>
      simp only [List.foldl_cons, List.map_cons, List.sum_cons]
      rw [ih]
      simp [PerformanceIndex.add]
      ring

lemma foldl_squaredNorm (l : List ℝ) :
    ∀ acc : ℝ, l.foldl (fun acc t => acc + t * t) acc = acc + (l.map (fun t => t * t)).sum := by
  induction l with
  | nil => simp
  | cons a l ih =>
      intro acc
      rw [List.foldl_cons, ih]
      simp
      ring

lemma squaredNorm_eq_sum (v : vec) : squaredNorm v = (List.map (fun t => t * t) v).sum := by
  unfold squaredNorm
  rw [foldl_squaredNorm]
  simp

lemma foldl_squaredNorm_traj (l : List vec) :
    ∀ acc : ℝ, l.foldl (fun nrm vi => nrm + squaredNorm vi) acc = acc + (l.map squaredNorm).sum := by
  induction l with
  | nil => simp
  | cons a l ih =>
      intro acc
      rw [List.foldl_cons, ih]
      simp
      ring

lemma trajectoryNorm_eq_concat (v : List vec) :
    trajectoryNorm v = Real.sqrt (squaredNorm v.flatten) := by
  unfold trajectoryNorm
  rw [foldl_squaredNorm_traj, zero_add, squaredNorm_eq_sum]
  congr 1
  induction v with
  | nil => simp
  | cons a l ih => simp [squaredNorm_eq_sum, ih]

lemma takeStepLoop_acceptedAlpha_pow (P : TakeStepParams) (x u : List vec) {a : ℝ}
    {out : TakeStepOut} (h : TakeStepLoop P x u a out) :
    ∀ b, out.acceptedAlpha = some b → ∃ k : ℕ, b = a * P.settings.alpha_decay ^ k := by
  induction h with
  | exitAlphaMin hguard => intro b hb; exact absurd hb (by simp)
  | exitAccept hguard hacc =>
      intro b hb
      obtain rfl : _ = b := by simpa using hb
      exact ⟨0, by rw [pow_zero, mul_one]⟩
  | exitStepSize hguard hacc htol => intro b hb; exact absurd hb (by simp)
  | next hguard hacc htol htail ih =>
      intro b hb
      obtain ⟨k, hk⟩ := ih b hb
      exact ⟨k + 1, by rw [hk]; ring⟩

lemma takeStepLoop_frame (P : TakeStepParams) (x u : List vec) {a : ℝ}
    {out : TakeStepOut} (h : TakeStepLoop P x u a out) (hnone : out.acceptedAlpha = none) :
    out.x = x ∧ out.u = u := by
  induction h with
  | exitAlphaMin hguard => exact ⟨rfl, rfl⟩
  | exitAccept hguard hacc => exact absurd hnone (by simp)
  | exitStepSize hguard hacc htol => exact ⟨rfl, rfl⟩
  | next hguard hacc htol htail ih => exact ih hnone

lemma takeStepLoop_converged_iff (P : TakeStepParams) (x u : List vec) {a : ℝ}
    {out : TakeStepOut} (h : TakeStepLoop P x u a out) :
    out.converged ↔
      ((∃ b, out.acceptedAlpha = some b ∧
          (P.stepSizeBelowTol b ∨ P.improvementBelowTol x u b)) ∨
        out.acceptedAlpha = none) := by
  induction h with
  | exitAlphaMin hguard => simp
  | exitAccept hguard hacc => simp
  | exitStepSize hguard hacc htol => simp
  | next hguard hacc htol htail ih => exact ih

/-- C1: in the filter line-search of `takeStep`, with candidate violation
`v = sqrt(stateEqConstraintISE + stateInputEqConstraintISE + inequalityConstraintISE)`
and baseline violation `v_B`, the candidate is accepted exactly when
`v <= g_max` and either (`v < g_min` and candidate merit < baseline merit) or
(`g_min <= v <= g_max` and (candidate merit < baseline merit - gamma_c * v_B
or `v < (1 - gamma_c) * v_B`)); a candidate with `v > g_max` is always
rejected. -/
theorem stepAccepted_filter_rule (s : Settings) (B C : PerformanceIndex) :
    stepAccepted s B (constraintViolation B) C (constraintViolation C) ↔
      constraintViolation C ≤ s.g_max ∧
        ((constraintViolation C < s.g_min ∧ C.merit < B.merit) ∨
          (s.g_min ≤ constraintViolation C ∧ constraintViolation C ≤ s.g_max ∧
            (C.merit < B.merit - s.gamma_c * constraintViolation B ∨
              constraintViolation C < (1 - s.gamma_c) * constraintViolation B))) := by
  unfold stepAccepted
  by_cases h1 : constraintViolation C > s.g_max
  · rw [if_pos h1]
    simp only [false_iff]
    rintro ⟨hle, -⟩
    exact absurd h1 (not_lt.mpr hle)
  · rw [if_neg h1]
    by_cases h2 : constraintViolation C < s.g_min
    · rw [if_pos h2]
      constructor
      · intro hm
        exact ⟨le_of_not_lt h1, Or.inl ⟨h2, hm⟩⟩
      · rintro ⟨-, (⟨-, hm⟩ | ⟨hge, -, -⟩)⟩
        · exact hm
        · exact absurd h2 (not_lt.mpr hge)
    · rw [if_neg h2]
      constructor
      · intro hd
        exact ⟨le_of_not_lt h1, Or.inr ⟨le_of_not_lt h2, le_of_not_lt h1, hd⟩⟩
      · rintro ⟨-, (⟨hlt, -⟩ | ⟨-, -, hd⟩)⟩
        · exact absurd hlt h2
        · exact hd

/-- C2: `takeStep` starts at `alpha = 1` and multiplies by `alpha_decay` on
each continuing rejection, so any accepted step size is `alpha_decay ^ k`;
it returns `true` exactly when a step is accepted with
`alpha * |du| < deltaTol` and `alpha * |dx| < deltaTol`, or a step is
accepted with `|baseline.merit - candidate.merit| < costTol` and the
candidate violation below `g_min`, or no step is accepted (a rejected
candidate already below the step tolerance, or `alpha` decayed to
`alpha_min`); and `trajectoryNorm` is the Euclidean norm of the
concatenated sequence. -/
theorem takeStep_convergence (P : TakeStepParams) (x u : List vec) (out : TakeStepOut)
    (h : TakeStep P x u out) :
    (out.converged ↔
      ((∃ b, out.acceptedAlpha = some b ∧
          (P.stepSizeBelowTol b ∨ P.improvementBelowTol x u b)) ∨
        out.acceptedAlpha = none)) ∧
    (∀ b, out.acceptedAlpha = some b → ∃ k : ℕ, b = P.settings.alpha_decay ^ k) ∧
    (∀ v : List vec, trajectoryNorm v = Real.sqrt (squaredNorm v.flatten)) := by
  refine ⟨takeStepLoop_converged_iff P x u h, ?_, trajectoryNorm_eq_concat⟩
  intro b hb
  obtain ⟨k, hk⟩ := takeStepLoop_acceptedAlpha_pow P x u h b hb
  exact ⟨k, by rw [hk, one_mul]⟩

/-- Witness for C2 at a concrete input: with `alpha_min = 1` the loop guard
fails immediately and `takeStep` reports convergence without acceptance. -/
theorem takeStep_convergence_witness :
    TakeStep paramsStop [] [] outStop ∧
    ((outStop.converged ↔
      ((∃ b, outStop.acceptedAlpha = some b ∧
          (paramsStop.stepSizeBelowTol b ∨ paramsStop.improvementBelowTol [] [] b)) ∨
        outStop.acceptedAlpha = none)) ∧
    (∀ b, outStop.acceptedAlpha = some b →
      ∃ k : ℕ, b = paramsStop.settings.alpha_decay ^ k) ∧
    (∀ v : List vec, trajectoryNorm v = Real.sqrt (squaredNorm v.flatten))) :=
  have hder : TakeStep paramsStop [] [] outStop :=
    TakeStepLoop.exitAlphaMin (by simp [paramsStop, settingsStop])
  ⟨hder, takeStep_convergence paramsStop [] [] outStop hder⟩

/-- C9: whenever `takeStep` returns without accepting any candidate, the
in/out trajectories `x` and `u` are exactly unchanged: candidates live in
the local buffers `xNew`, `uNew` and are moved into `x`, `u` only on
acceptance. -/
theorem takeStep_frame_no_acceptance (P : TakeStepParams) (x u : List vec) (out : TakeStepOut)
    (h : TakeStep P x u out) (hnone : out.acceptedAlpha = none) :
    out.x = x ∧ out.u = u :=
  takeStepLoop_frame P x u h hnone

/-- Witness for C9 at a concrete input. -/
theorem takeStep_frame_no_acceptance_witness :
    TakeStep paramsStop [] [] outStop ∧ outStop.acceptedAlpha = none ∧
    (outStop.x = [] ∧ outStop.u = []) :=
  have hder : TakeStep paramsStop [] [] outStop :=
    TakeStepLoop.exitAlphaMin (by simp [paramsStop, settingsStop])
  ⟨hder, rfl, takeStep_frame_no_acceptance paramsStop [] [] outStop hder rfl⟩

lemma getD_range_map {α : Type _} (f : ℕ → α) {n i : ℕ} (h : i < n) (d : α) :
    ((List.range n).map f).getD i d = f i := by
  have hl : i < ((List.range n).map f).length := by simp [h]
  rw [List.getD_eq_getElem _ _ hl]
  simp

/-- C4: the merit field of every aggregated performance index returned by
`setupQuadraticSubproblem` and by `computePerformance` equals
`totalCost + inequalityConstraintPenalty` of the aggregate: the accumulated
per-worker merit values are discarded by the final overwrite. -/
theorem aggregate_merit_recomputed (worker : List PerformanceIndex) (initState x0 : vec) :
    ((setupQuadraticSubproblemPerf worker initState x0).merit =
        (setupQuadraticSubproblemPerf worker initState x0).totalCost +
          (setupQuadraticSubproblemPerf worker initState x0).inequalityConstraintPenalty) ∧
    ((computePerformanceAgg worker initState x0).merit =
        (computePerformanceAgg worker initState x0).totalCost +
          (computePerformanceAgg worker initState x0).inequalityConstraintPenalty) := by
  constructor <;> cases worker <;>
    simp [setupQuadraticSubproblemPerf, computePerformanceAgg]

/-- C5: after subproblem assembly, the aggregated `stateEqConstraintISE` is
the sum over all workers of their locally accumulated `stateEqConstraintISE`
plus the initial-condition residual `squaredNorm (initState - x[0])`. -/
theorem aggregate_stateEqISE_sum (worker : List PerformanceIndex) (initState x0 : vec)
    (hne : worker ≠ []) :
    (setupQuadraticSubproblemPerf worker initState x0).stateEqConstraintISE =
      (worker.map PerformanceIndex.stateEqConstraintISE).sum +
        squaredNorm (vsub initState x0) := by
  cases worker with
  | nil => exact absurd rfl hne
  | cons w ws =>
      simp only [setupQuadraticSubproblemPerf]
      rw [foldl_add_stateEqISE]
      simp
      ring

/-- Witness for C5 at a concrete input. -/
theorem aggregate_stateEqISE_sum_witness :
    ([(default : PerformanceIndex)] ≠ []) ∧
    (setupQuadraticSubproblemPerf [(default : PerformanceIndex)] [] []).stateEqConstraintISE =
      ([(default : PerformanceIndex)].map PerformanceIndex.stateEqConstraintISE).sum +
        squaredNorm (vsub [] []) :=
  ⟨by simp, aggregate_stateEqISE_sum [(default : PerformanceIndex)] [] [] (by simp)⟩

/-- C3: a non-success QP status makes `getOCPSolution` throw, and a solve in
which the exception propagates leaves the stored primal solution exactly as
it was before `runImpl` started. -/
theorem qp_failure_preserves_primal :
    (∀ (status : HpipmStatus) (hasC project : Bool) (cb : List ConstraintBlock)
        (dX dU : List vec), status ≠ HpipmStatus.SUCCESS →
          getOCPSolution status hasC project cb dX dU = Except.error ()) ∧
    ∀ (O : SqpOracles) (S : Settings) (hasC : Bool) (initState : vec) (s s' : SolverState),
      RunImpl O S hasC initState s (RunOutcome.threw s') →
        s'.primalSolution = s.primalSolution := by
  constructor
  · intro status hasC project cb dX dU hst
    simp only [getOCPSolution]
    rw [if_pos hst]
  · intro O S hasC initState s s' h
    cases h with
    | threw hloop => rfl

/-- Witness for C3 at a concrete input: the QP reports `MAX_ITER` in the
first iteration and the exception leaves the primal solution untouched. -/
theorem qp_failure_preserves_primal_witness :
    (HpipmStatus.MAX_ITER ≠ HpipmStatus.SUCCESS ∧
      getOCPSolution HpipmStatus.MAX_ITER false false [] [] [] = Except.error ()) ∧
    (RunImpl oracles0 settingsOne false [] solverState0 (RunOutcome.threw threwState) ∧
      threwState.primalSolution = solverState0.primalSolution) :=
  have hder : RunImpl oracles0 settingsOne false [] solverState0
      (RunOutcome.threw threwState) :=
    RunImpl.threw (SqpLoop.qpFail rfl)
  ⟨⟨by decide, qp_failure_preserves_primal.1 HpipmStatus.MAX_ITER false false [] [] []
      (by decide)⟩,
    hder, qp_failure_preserves_primal.2 oracles0 settingsOne false [] solverState0
      threwState hder⟩

lemma candidateU_length (alpha : ℝ) (N : ℕ) (u du : List vec) :
    (candidateU alpha N u du).length = u.length := by
  simp [candidateU]

lemma candidateX_length (alpha : ℝ) (N : ℕ) (x dx : List vec) :
    (candidateX alpha N x dx).length = x.length := by
  simp [candidateX]

lemma takeStepLoop_lengths (P : TakeStepParams) (x u : List vec) {a : ℝ}
    {out : TakeStepOut} (h : TakeStepLoop P x u a out) :
    out.x.length = x.length ∧ out.u.length = u.length := by
  induction h with
  | exitAlphaMin hguard => exact ⟨rfl, rfl⟩
  | exitAccept hguard hacc =>
      constructor
      · simpa [TakeStepParams.xNew] using candidateX_length _ _ x P.dx
      · simpa [TakeStepParams.uNew] using candidateU_length _ _ u P.du
  | exitStepSize hguard hacc htol => exact ⟨rfl, rfl⟩
  | next hguard hacc htol htail ih => exact ih

lemma sqpLoop_finished_lengths (O : SqpOracles) (S : Settings) (hasC : Bool) (i0 : vec)
    {k it : ℕ} {x u : List vec} {log : List PerformanceIndex} {cb : List ConstraintBlock}
    {outcome : SqpOutcome} (h : SqpLoop O S hasC i0 k it x u log cb outcome) :
    ∀ x' u' log' cb' iters, outcome = SqpOutcome.finished x' u' log' cb' iters →
      x'.length = x.length ∧ u'.length = u.length := by
  induction h with
  | exhausted =>
      intro x' u' log' cb' iters heq
      cases heq
      exact ⟨rfl, rfl⟩
  | qpFail hqp =>
      intro x' u' log' cb' iters heq
      exact absurd heq (by simp)
  | converged hqp hts hconv =>
      intro x' u' log' cb' iters heq
      cases heq
      exact takeStepLoop_lengths _ _ _ hts
  | step hqp hts hconv htail ih =>
      intro x' u' log' cb' iters heq
      have hl := takeStepLoop_lengths _ _ _ hts
      obtain ⟨hx, hu⟩ := ih x' u' log' cb' iters heq
      exact ⟨hx.trans hl.1, hu.trans hl.2⟩

lemma initStateTrajectory_length (i0 : vec) (td : List ℝ) (f : ℝ → vec) (b : Bool) (N : ℕ) :
    (initStateTrajectory i0 td f b N).length = N + 1 := by
  cases b <;> simp [initStateTrajectory]

lemma initInputTrajectory_length (till : ℝ) (td : List ℝ) (f : ℝ → vec)
    (ot : Option (ℝ → ℝ → vec → vec)) (ni : ℕ) (xT : List vec) (N : ℕ) :
    (initInputTrajectory till td f ot ni xT N).length = N := by
  simp [initInputTrajectory]

/-- C6: every solve of `runImpl` returning normally on a time grid of `N+1`
points emits a primal solution whose time, state and input trajectories all
have length `N+1`; the input trajectory of length `N` is extended by
duplicating its last element. -/
theorem primal_solution_lengths (O : SqpOracles) (S : Settings) (hasC : Bool)
    (initState : vec) (s s' : SolverState) (N : ℕ) (hN : O.timeDisc.length = N + 1)
    (h : RunImpl O S hasC initState s (RunOutcome.finished s')) :
    s'.primalSolution.timeTrajectory.length = N + 1 ∧
      s'.primalSolution.stateTrajectory.length = N + 1 ∧
      s'.primalSolution.inputTrajectory.length = N + 1 := by
  have hON : O.N = N := by simp [SqpOracles.N, hN]
  cases h with
  | finished hloop =>
      obtain ⟨hx, hu⟩ := sqpLoop_finished_lengths O S hasC initState hloop _ _ _ _ _ rfl
      have hxlen : (runInitX O initState s).length = O.N + 1 := by
        simp [runInitX, initStateTrajectory_length]
      have hulen : (runInitU O S initState s).length = O.N := by
        simp [runInitU, initInputTrajectory_length]
      refine ⟨hN, ?_, ?_⟩
      · simpa [emitPrimalSolution, hON] using hx.trans (hxlen.trans (by rw [hON]))
      · simp [emitPrimalSolution, duplicateLast]
        rw [hu, hulen, hON]

/-- Witness for C6 at a concrete input: a zero-iteration solve on the
one-point grid. -/
theorem primal_solution_lengths_witness :
    oracles0.timeDisc.length = 0 + 1 ∧
    RunImpl oracles0 settingsStop false [] solverState0 (RunOutcome.finished finishedState) ∧
    (finishedState.primalSolution.timeTrajectory.length = 0 + 1 ∧
      finishedState.primalSolution.stateTrajectory.length = 0 + 1 ∧
      finishedState.primalSolution.inputTrajectory.length = 0 + 1) :=
  have hder : RunImpl oracles0 settingsStop false [] solverState0
      (RunOutcome.finished finishedState) :=
    RunImpl.finished SqpLoop.exhausted
  ⟨rfl, hder,
    primal_solution_lengths oracles0 settingsStop false [] solverState0 finishedState 0
      rfl hder⟩

/-- C7: with projection enabled and a constraint present, the QP solution in
the reduced input space is remapped node-wise as
`deltaU[i] = dfdu[i] * deltaU_tilde[i] + dfdx[i] * deltaX[i] + f[i]`; when
projection is disabled or no constraint is present, `deltaU` is returned
unchanged. -/
theorem qp_solution_projection_remap (status : HpipmStatus) (hasC project : Bool)
    (cb : List ConstraintBlock) (dX dU : List vec) (hst : status = HpipmStatus.SUCCESS) :
    ((hasC && project) = true →
      getOCPSolution status hasC project cb dX dU =
          Except.ok (dX, remapInputStep cb dX dU) ∧
        ∀ i, i < dU.length →
          (remapInputStep cb dX dU).getD i default =
            vadd
              (vadd (matVec (cb.getD i default).dfdu (dU.getD i default))
                (matVec (cb.getD i default).dfdx (dX.getD i default)))
              (cb.getD i default).f) ∧
    ((hasC && project) = false →
      getOCPSolution status hasC project cb dX dU = Except.ok (dX, dU)) := by
  subst hst
  constructor
  · intro hp
    constructor
    · simp [getOCPSolution, hp]
    · intro i hi
      simp only [remapInputStep]
      rw [getD_range_map _ hi]
  · intro hp
    simp [getOCPSolution, hp]

/-- Witness for C7 at a concrete input. -/
theorem qp_solution_projection_remap_witness :
    HpipmStatus.SUCCESS = HpipmStatus.SUCCESS ∧
    (((true && true) = true →
      getOCPSolution HpipmStatus.SUCCESS true true [] [] [] =
          Except.ok (([] : List vec), remapInputStep [] [] []) ∧
        ∀ i, i < ([] : List vec).length →
          (remapInputStep [] [] []).getD i default =
            vadd
              (vadd (matVec ((([] : List ConstraintBlock).getD i default)).dfdu
                  (([] : List vec).getD i default))
                (matVec ((([] : List ConstraintBlock).getD i default)).dfdx
                  (([] : List vec).getD i default)))
              (([] : List ConstraintBlock).getD i default).f) ∧
    ((true && true) = false →
      getOCPSolution HpipmStatus.SUCCESS true true [] [] [] =
        Except.ok (([] : List vec), ([] : List vec)))) :=
  ⟨rfl, qp_solution_projection_remap HpipmStatus.SUCCESS true true [] [] [] rfl⟩

/-- C8: with a feedback controller requested, the projection branch emits
gain `dfdx[i] + dfdu[i] * K[i]` and feedforward `u[i] - gain[i] * x[i]` for
every node `i < N`; without projection the gain is `K[i]` and the
feedforward is `u[i] - K[i] * x[i]`; in both branches the last gain and
feedforward samples are duplicated to length `N+1`. -/
theorem controller_feedback_emission (cb : List ConstraintBlock) (K : List mat)
    (time : List ℝ) (xT uT : List vec) (N : ℕ) :
    (emitController true true true cb K time xT uT N =
        Controller.linear time
          (duplicateLast (feedforwardTerms (projectedGains cb K N) uT xT N))
          (duplicateLast (projectedGains cb K N))) ∧
    (∀ i, i < N →
      (projectedGains cb K N).getD i default =
          matAdd (cb.getD i default).dfdx
            (matMul (cb.getD i default).dfdu (K.getD i default)) ∧
        (feedforwardTerms (projectedGains cb K N) uT xT N).getD i default =
          vsub (uT.getD i default)
            (matVec ((projectedGains cb K N).getD i default) (xT.getD i default))) ∧
    (∀ hasC project : Bool, (hasC && project) = false →
      emitController hasC project true cb K time xT uT N =
        Controller.linear time
          (duplicateLast
            (feedforwardTerms ((List.range N).map fun j => K.getD j default) uT xT N))
          (duplicateLast ((List.range N).map fun j => K.getD j default))) ∧
    (∀ i, i < N →
      (((List.range N).map fun j => K.getD j default).getD i default = K.getD i default) ∧
        ((feedforwardTerms ((List.range N).map fun j => K.getD j default) uT xT N).getD i
            default =
          vsub (uT.getD i default) (matVec (K.getD i default) (xT.getD i default)))) ∧
    ((duplicateLast (feedforwardTerms (projectedGains cb K N) uT xT N)).length = N + 1 ∧
      (duplicateLast (projectedGains cb K N)).length = N + 1 ∧
      (duplicateLast
          (feedforwardTerms ((List.range N).map fun j => K.getD j default) uT xT N)).length =
        N + 1 ∧
      (duplicateLast ((List.range N).map fun j => K.getD j default)).length = N + 1) := by
  refine ⟨rfl, ?_, ?_, ?_, ?_⟩
  · intro i hi
    constructor
    · simp only [projectedGains]
      rw [getD_range_map _ hi]
    · simp only [feedforwardTerms]
      rw [getD_range_map _ hi]
  · intro hasC project hp
    simp [emitController, hp]
  · intro i hi
    constructor
    · rw [getD_range_map _ hi]
    · simp only [feedforwardTerms]
      rw [getD_range_map _ hi, getD_range_map _ hi]
  · simp [duplicateLast, feedforwardTerms, projectedGains]

/-- Witness for C8 at a concrete input. -/
theorem controller_feedback_emission_witness :
    (0 < 1) ∧
    (projectedGains [] [] 1).getD 0 default =
        matAdd (([] : List ConstraintBlock).getD 0 default).dfdx
          (matMul (([] : List ConstraintBlock).getD 0 default).dfdu
            (([] : List mat).getD 0 default)) ∧
      (feedforwardTerms (projectedGains [] [] 1) [] [] 1).getD 0 default =
        vsub (([] : List vec).getD 0 default)
          (matVec ((projectedGains [] [] 1).getD 0 default) (([] : List vec).getD 0 default)) :=
  ⟨Nat.zero_lt_one,
    (controller_feedback_emission [] [] [] [] [] 1).2.1 0 Nat.zero_lt_one⟩

/-- C10: on a degenerate single-point grid (`N = 0`) the input trajectory
produced by the initialization loop is empty, so the padding step's `back()`
has no value (undefined behavior in the source); with `N >= 1` the padded
element exists, and with `N = 0` the controller-emission loops read none of
their inputs. -/
theorem degenerate_grid_requires_two_points :
    (∀ (till : ℝ) (td : List ℝ) (ip : ℝ → vec) (ot : Option (ℝ → ℝ → vec → vec)) (ni : ℕ)
        (xT : List vec), initInputTrajectory till td ip ot ni xT 0 = []) ∧
    (([] : List vec).getLast? = none) ∧
    (∀ (u : List vec) (N : ℕ), u.length = N → 1 ≤ N → ∃ v, u.getLast? = some v) ∧
    (∀ (hasC project : Bool) (cb cb' : List ConstraintBlock) (K K' : List mat)
        (time : List ℝ) (xT uT xT' uT' : List vec),
      emitController hasC project true cb K time xT uT 0 =
        emitController hasC project true cb' K' time xT' uT' 0) := by
  refine ⟨?_, rfl, ?_, ?_⟩
  · intro till td ip ot ni xT
    simp [initInputTrajectory]
  · intro u N hlen hN
    have hne : u ≠ [] := by
      intro hnil
      subst hnil
      simp at hlen
      omega
    exact Option.isSome_iff_exists.mp (List.getLast?_isSome.mpr hne)
  · intro hasC project cb cb' K K' time xT uT xT' uT'
    cases hb : (hasC && project) <;>
      simp [emitController, hb, projectedGains, feedforwardTerms, duplicateLast]

/-- Witness for C10 at a concrete input. -/
theorem degenerate_grid_requires_two_points_witness :
    ([([] : List ℝ)] : List vec).length = 1 ∧ 1 ≤ 1 ∧
      ∃ v, ([([] : List ℝ)] : List vec).getLast? = some v :=
  ⟨rfl, le_rfl,
    degenerate_grid_requires_two_points.2.2.1 [([] : List ℝ)] 1 rfl le_rfl⟩

end OCS2
